import Mathlib

/-!
Verification of the download-and-transcode pipeline of MediaGrab
(`src/libs/youtube_downloader/YouTubeDownloader.py`).

The Python class `YouTubeDownloader` is embedded shallowly:

* `ProgressEvent` models the dict `d` passed by the download tool to
  `_progress_hook` (only the keys the hook reads: `status`, `filename`).
* `HookState` models the observable effects: the filesystem (list of
  existing files), every external-process invocation started (argument
  lists, in order), and the log lines emitted.
* `PyExn` models the Python exception kinds the code distinguishes:
  `subprocess.CalledProcessError` (raised by `subprocess.run(..., check=True)`
  on a non-zero exit) versus every other exception (e.g. `FileNotFoundError`
  from launching a missing executable or from `os.remove`), plus the
  download tool's own batch exception.
* `RunResult` is the environment's choice of what happens when the external
  transcoding tool is started on a given argument list: it exits with some
  code, or the launch itself raises (executable not found).  Per the spec's
  external-interface contract the tool's write is atomic: on exit 0 the
  output file is created, on any failure nothing is created.
* Fallible Python code is embedded as `Except (PyExn × HookState) HookState`:
  an `Except.error (e, st)` is an exception `e` escaping with the effects
  `st` performed up to the raise point.

Directory creation (`os.makedirs`) and the logger object itself are out of
scope of the claims; log lines are recorded in `HookState.log`.
-/

/-- Severity levels of the `Logger` collaborator. -/
inductive LogLevel
  | info
  | debug
  | warning
  | error
  | critical
deriving DecidableEq, Repr

/-- One emitted log line. -/
structure LogLine where
  level : LogLevel
  msg : String
deriving DecidableEq, Repr

/-- The dict `d` handed to `_progress_hook` by the download tool:
`d['status']` and `d['filename']`. -/
structure ProgressEvent where
  status : String
  filename : String
deriving DecidableEq, Repr

/-- Python exception kinds relevant to this code.
`calledProcessError c` is `subprocess.CalledProcessError` with exit code `c`
(the only kind the hook's `except` clause catches); `otherError` is any other
exception (e.g. `FileNotFoundError`); `downloadError` is an exception raised
by the external download tool for the whole batch. -/
inductive PyExn
  | calledProcessError (code : Nat)
  | otherError
  | downloadError
deriving DecidableEq, Repr

/-- Model of `str(e)` for a `PyExn`, used in log messages. -/
def exnMessage : PyExn → String
  | PyExn.calledProcessError c =>
      "Command returned non-zero exit status " ++ toString c ++ "."
  | PyExn.otherError => "No such file or directory"
  | PyExn.downloadError => "DownloadError"

/-- Outcome chosen by the environment for starting the external transcoding
tool on a given argument list: the process runs and exits with `code`, or the
launch itself raises a non-`CalledProcessError` exception (e.g. the `ffmpeg`
executable is not installed). -/
inductive RunResult
  | exit (code : Nat)
  | raiseOther
deriving DecidableEq, Repr

/-- Observable effects: existing files, external-process invocations started
(each an argument list, in order), and log lines emitted. -/
structure HookState where
  fs : List String
  invocations : List (List String)
  log : List LogLine
deriving DecidableEq, Repr

/-- `logger.write_info msg`. -/
def logInfo (s : HookState) (m : String) : HookState :=
  { s with log := s.log ++ [⟨LogLevel.info, m⟩] }

/-- `logger.write_debug msg`. -/
def logDebug (s : HookState) (m : String) : HookState :=
  { s with log := s.log ++ [⟨LogLevel.debug, m⟩] }

/-- `logger.write_error msg`. -/
def logError (s : HookState) (m : String) : HookState :=
  { s with log := s.log ++ [⟨LogLevel.error, m⟩] }

/-- The suffix of `l` strictly after the last occurrence of `c`
(`l` itself contains no `c` after this suffix); the whole of `l` when `c`
does not occur. -/
def afterLast (c : Char) (l : List Char) : List Char :=
  (l.reverse.takeWhile (fun x => decide (x ≠ c))).reverse

/-- The part of `l` strictly before the last occurrence of `c`, or `none`
when `c` does not occur in `l`. -/
def beforeLast (c : Char) (l : List Char) : Option (List Char) :=
  match l.reverse.dropWhile (fun x => decide (x ≠ c)) with
  | [] => none
  | _ :: rest => some rest.reverse

/-- Python `filename.rsplit('.', 1)[0]`: everything before the last `'.'`
anywhere in the string, or the whole string when it contains no `'.'`.
(Line 171 of `YouTubeDownloader.py`.) -/
def rsplitStem (f : String) : String :=
  match beforeLast '.' f.data with
  | some p => String.mk p
  | none => f

/-- `output_filename = filename.rsplit('.', 1)[0] + '.mp3'`
(line 171 of `YouTubeDownloader.py`). -/
def output_filename (f : String) : String :=
  rsplitStem f ++ ".mp3"

/-- The FFmpeg argument list built at lines 175–184 of
`YouTubeDownloader.py`. -/
def ffmpegCommand (filename out : String) : List String :=
  ["ffmpeg", "-i", filename, "-vn", "-ar", "44100",
   "-ac", "2", "-b:a", "320k", "-f", "mp3", out]

/-- `YouTubeDownloader._progress_hook(d, convert_to_mp3)`
(lines 143–193). `env` decides the outcome of each external-process start.

Control flow mirrors the source: nothing happens unless
`d['status'] == 'finished'`; the produced filename is logged; in
convert-to-mp3 mode the FFmpeg command is built and started
(`subprocess.run(command, check=True)`), on exit 0 the output file appears
(atomic external write), the original is removed with `os.remove`, and the
`except subprocess.CalledProcessError` clause absorbs exactly the non-zero
exit: a launch failure or a failed `os.remove` escapes as `otherError`. -/
def progress_hook (env : List String → RunResult) (d : ProgressEvent)
    (convert_to_mp3 : Bool) (s : HookState) :
    Except (PyExn × HookState) HookState :=
  if d.status = "finished" then
    let filename := d.filename
    let s1 := logInfo s ("Downloaded file: " ++ filename)
    if convert_to_mp3 then
      let s2 := logDebug s1 ("Converting " ++ filename ++ " to MP3...")
      let out := output_filename filename
      let command := ffmpegCommand filename out
      let s3 := { s2 with invocations := s2.invocations ++ [command] }
      match env command with
      | RunResult.raiseOther =>
          -- subprocess.run raised e.g. FileNotFoundError: not a
          -- CalledProcessError, so the except clause does not catch it.
          Except.error (PyExn.otherError, s3)
      | RunResult.exit 0 =>
          let s4 := { s3 with fs := out :: s3.fs }
          let s5 := logInfo s4 ("Converted " ++ filename ++ " to MP3: " ++ out)
          if filename ∈ s5.fs then
            let s6 := { s5 with fs := s5.fs.filter (fun g => decide (g ≠ filename)) }
            Except.ok (logDebug s6 ("Deleted original file: " ++ filename))
          else
            -- os.remove raises FileNotFoundError: not caught by the
            -- except subprocess.CalledProcessError clause.
            Except.error (PyExn.otherError, s5)
      | RunResult.exit (n + 1) =>
          Except.ok (logError s3 ("Error converting " ++ filename ++ " to MP3: "
            ++ exnMessage (PyExn.calledProcessError (n + 1))))
    else
      Except.ok s1
  else
    Except.ok s

/-- The download tool delivers its progress events serially to the hook;
an exception escaping the hook aborts the delivery and propagates. -/
def runHooks (env : List String → RunResult) (convert_to_mp3 : Bool)
    (evs : List ProgressEvent) (s : HookState) :
    Except (PyExn × HookState) HookState :=
  match evs with
  | [] => Except.ok s
  | e :: rest =>
      match progress_hook env e convert_to_mp3 s with
      | Except.ok s1 => runHooks env convert_to_mp3 rest s1
      | Except.error x => Except.error x

/-- Python `os.path.join(a, b)` for the relative template `b` used here. -/
def osPathJoin (a b : String) : String :=
  if a = "" then b
  else if a.endsWith "/" then a ++ b
  else a ++ "/" ++ b

/-- The declarative download options built at lines 125–134 of
`YouTubeDownloader.py`; `hook_convert_to_mp3` records the flag the
registered progress hook closure was bound with. -/
structure YdlOpts where
  outtmpl : String
  format : String
  skip_unavailable_fragments : Bool
  ignoreerrors : Bool
  noplaylist : Bool
  hook_convert_to_mp3 : Bool
deriving DecidableEq, Repr

/-- `ydl_opts` as built in `_download_from_youtube` (lines 125–134). -/
def build_ydl_opts (path : String) (keep_audio_only isPlaylist : Bool) : YdlOpts :=
  { outtmpl := osPathJoin path "%(playlist_title)s/%(playlist_index)s - %(title)s.%(ext)s"
  , format := if keep_audio_only then "bestaudio/best" else "bestvideo+bestaudio/best"
  , skip_unavailable_fragments := true
  , ignoreerrors := true
  , noplaylist := if isPlaylist then true else false
  , hook_convert_to_mp3 := keep_audio_only }

/-- The body of the `try` block of `_download_from_youtube` (lines 120–138):
build the options, log the start, let the download tool deliver `evs` to the
registered hook, and finally the tool either returns or raises `toolExn` for
the whole batch.  Any exception (from the tool or escaping the hook)
propagates out of this body. -/
def fetch_try (env : List String → RunResult) (url path : String)
    (keep_audio_only isPlaylist : Bool) (evs : List ProgressEvent)
    (toolExn : Option PyExn) (s : HookState) :
    Except (PyExn × HookState) HookState :=
  let opts := build_ydl_opts path keep_audio_only isPlaylist
  let s1 := logDebug s ("Starting download for playlist: " ++ url)
  match runHooks env opts.hook_convert_to_mp3 evs s1 with
  | Except.error x => Except.error x
  | Except.ok s2 =>
      match toolExn with
      | some e => Except.error (e, s2)
      | none => Except.ok s2

/-- `YouTubeDownloader._download_from_youtube` (lines 100–141): the whole
`try` body wrapped in `except Exception as e`, which catches every exception
and logs it, so the call always returns normally (`Except.ok`). -/
def download_from_youtube (env : List String → RunResult) (url path : String)
    (keep_audio_only isPlaylist : Bool) (evs : List ProgressEvent)
    (toolExn : Option PyExn) (s : HookState) :
    Except (PyExn × HookState) HookState :=
  match fetch_try env url path keep_audio_only isPlaylist evs toolExn s with
  | Except.ok s1 => Except.ok s1
  | Except.error (e, s1) =>
      Except.ok (logError s1 ("Error downloading playlist: " ++ url ++ ", "
        ++ exnMessage e))

/-- `YouTubeDownloader.download_video` (lines 58–77). -/
def download_video (env : List String → RunResult) (url path : String)
    (keep_audio_only : Bool) (evs : List ProgressEvent)
    (toolExn : Option PyExn) (s : HookState) :
    Except (PyExn × HookState) HookState :=
  download_from_youtube env url path keep_audio_only false evs toolExn s

/-- `YouTubeDownloader.download_playlist` (lines 79–98). -/
def download_playlist (env : List String → RunResult) (url path : String)
    (keep_audio_only : Bool) (evs : List ProgressEvent)
    (toolExn : Option PyExn) (s : HookState) :
    Except (PyExn × HookState) HookState :=
  download_from_youtube env url path keep_audio_only true evs toolExn s

/-- The effects performed by a possibly-raising computation: the final state
on normal return, the state at the raise point on an exception. -/
def effState (r : Except (PyExn × HookState) HookState) : HookState :=
  match r with
  | Except.ok s => s
  | Except.error (_, s) => s

/-- Whether the computation raised (any exception escaped). -/
def raised (r : Except (PyExn × HookState) HookState) : Bool :=
  match r with
  | Except.ok _ => false
  | Except.error _ => true

/-- Whether a `subprocess.CalledProcessError` escaped the computation. -/
def escapesCalledProcessError (r : Except (PyExn × HookState) HookState) : Bool :=
  match r with
  | Except.error (PyExn.calledProcessError _, _) => true
  | _ => false

/-! ## Helper lemmas about the last-occurrence split -/

theorem mem_of_mem_takeWhile {p : Char → Bool} :
    ∀ (l : List Char) (x : Char), x ∈ l.takeWhile p → x ∈ l := by
  intro l
  induction l with
  | nil => intro x h; simp at h
  | cons a as ih =>
    intro x h
    rw [List.takeWhile_cons] at h
    by_cases hp : p a = true
    · rw [if_pos hp] at h
      rcases List.mem_cons.mp h with h1 | h2
      · exact h1 ▸ List.mem_cons_self a as
      · exact List.mem_cons_of_mem a (ih x h2)
    · rw [if_neg hp] at h
      simp at h

theorem mem_of_mem_afterLast (c : Char) (l : List Char) (x : Char)
    (h : x ∈ afterLast c l) : x ∈ l := by
  unfold afterLast at h
  have h1 : x ∈ l.reverse.takeWhile (fun y => decide (y ≠ c)) := List.mem_reverse.mp h
  exact List.mem_reverse.mp (mem_of_mem_takeWhile _ x h1)

theorem not_mem_afterLast_self (c : Char) (l : List Char) : c ∉ afterLast c l := by
  intro h
  unfold afterLast at h
  have h1 := List.mem_takeWhile_imp (List.mem_reverse.mp h)
  simp at h1

theorem dropWhile_head_false {p : Char → Bool} :
    ∀ (l : List Char) (x : Char) (rest : List Char),
      l.dropWhile p = x :: rest → p x = false := by
  intro l
  induction l with
  | nil => intro x rest h; simp [List.dropWhile] at h
  | cons a as ih =>
    intro x rest h
    rw [List.dropWhile_cons] at h
    by_cases hp : p a = true
    · rw [if_pos hp] at h; exact ih x rest h
    · rw [if_neg hp] at h
      cases h
      exact Bool.eq_false_iff.mpr hp

theorem beforeLast_decomp (c : Char) (l p : List Char)
    (h : beforeLast c l = some p) : l = p ++ c :: afterLast c l := by
  unfold beforeLast at h
  cases hd : l.reverse.dropWhile (fun x => decide (x ≠ c)) with
  | nil => rw [hd] at h; exact Option.noConfusion h
  | cons x rest =>
    rw [hd] at h
    have hx : (fun y => decide (y ≠ c)) x = false := dropWhile_head_false _ x rest hd
    have hxc : x = c := by simpa using hx
    have hsplit := List.takeWhile_append_dropWhile (fun y => decide (y ≠ c)) l.reverse
    rw [hd] at hsplit
    have hl : l = (l.reverse.takeWhile (fun y => decide (y ≠ c)) ++ x :: rest).reverse := by
      rw [hsplit, List.reverse_reverse]
    have hp : rest.reverse = p := by injection h
    have hA : afterLast c l = (l.reverse.takeWhile (fun y => decide (y ≠ c))).reverse := rfl
    rw [hA]
    conv_lhs => rw [hl]
    rw [List.reverse_append, List.reverse_cons, hxc, hp, List.append_assoc]
    rfl

theorem beforeLast_eq_none_iff (c : Char) (l : List Char) :
    beforeLast c l = none ↔ c ∉ l := by
  constructor
  · intro h hc
    unfold beforeLast at h
    cases hd : l.reverse.dropWhile (fun x => decide (x ≠ c)) with
    | nil =>
      have hall := List.dropWhile_eq_nil_iff.mp hd c (List.mem_reverse.mpr hc)
      simp at hall
    | cons x rest => rw [hd] at h; exact Option.noConfusion h
  · intro hc
    unfold beforeLast
    have hd : l.reverse.dropWhile (fun x => decide (x ≠ c)) = [] := by
      apply List.dropWhile_eq_nil_iff.mpr
      intro x hx
      have hxl : x ∈ l := List.mem_reverse.mp hx
      simp only [decide_eq_true_eq]
      intro hxc
      exact hc (hxc ▸ hxl)
    rw [hd]

theorem beforeLast_isSome_of_mem (c : Char) (l : List Char) (h : c ∈ l) :
    ∃ p, beforeLast c l = some p := by
  cases hb : beforeLast c l with
  | none => exact absurd h ((beforeLast_eq_none_iff c l).mp hb)
  | some p => exact ⟨p, rfl⟩

theorem takeWhile_ne_sym (a b : Char) :
    ∀ r : List Char,
      b ∈ r.takeWhile (fun x => decide (x ≠ a)) →
      a ∉ r.takeWhile (fun x => decide (x ≠ b)) := by
  intro r
  induction r with
  | nil => intro hb ha; simp [List.takeWhile] at hb
  | cons x xs ih =>
    intro hb ha
    rw [List.takeWhile_cons] at hb ha
    by_cases hxa : x = a
    · rw [hxa] at hb
      simp at hb
    · rw [if_pos (by simpa using hxa)] at hb
      by_cases hxb : x = b
      · rw [hxb] at ha
        simp at ha
      · rw [if_pos (by simpa using hxb)] at ha
        rcases List.mem_cons.mp hb with hb1 | hb2
        · exact hxb (hb1.symm)
        · rcases List.mem_cons.mp ha with ha1 | ha2
          · exact hxa (ha1.symm)
          · exact ih hb2 ha2

theorem afterLast_sym (a b : Char) (l : List Char)
    (h : b ∈ afterLast a l) : a ∉ afterLast b l := by
  intro ha
  unfold afterLast at h ha
  exact takeWhile_ne_sym a b l.reverse (List.mem_reverse.mp h) (List.mem_reverse.mp ha)

/-! ## Claims about the download options -/

/-- C5: For every fetch invocation, the format selector placed in the
DownloadOptions equals "bestaudio/best" when audioOnly is true and
"bestvideo+bestaudio/best" when audioOnly is false. -/
theorem claim_C5 (path : String) (isPlaylist : Bool) :
    (build_ydl_opts path true isPlaylist).format = "bestaudio/best" ∧
    (build_ydl_opts path false isPlaylist).format = "bestvideo+bestaudio/best" ∧
    ∀ keep_audio_only : Bool,
      (build_ydl_opts path keep_audio_only isPlaylist).format =
        if keep_audio_only then "bestaudio/best" else "bestvideo+bestaudio/best" :=
  ⟨rfl, rfl, fun _ => rfl⟩

/-- C7 (counterexample): the claim says the output filename template differs
between isCollection=true and isCollection=false invocations; in the code the
template is the same constant expression in both cases. -/
theorem claim_C7_counterexample :
    (build_ydl_opts "./out" false true).outtmpl =
      (build_ydl_opts "./out" false false).outtmpl :=
  rfl

/-- C7 (amended): the output filename template always encodes the collection
name and per-item index — it is the constant
`path/%(playlist_title)s/%(playlist_index)s - %(title)s.%(ext)s` — and is
identical for isCollection=true and isCollection=false. -/
theorem claim_C7_amended (path : String) (keep_audio_only isPlaylist : Bool) :
    (build_ydl_opts path keep_audio_only isPlaylist).outtmpl =
      osPathJoin path "%(playlist_title)s/%(playlist_index)s - %(title)s.%(ext)s" ∧
    (build_ydl_opts path keep_audio_only true).outtmpl =
      (build_ydl_opts path keep_audio_only false).outtmpl :=
  ⟨rfl, rfl⟩

/-- C9: the `noplaylist` option equals the `isPlaylist` argument;
`download_playlist` calls with isPlaylist=true and `download_video` with
isPlaylist=false. -/
theorem claim_C9 (path : String) (keep_audio_only : Bool) :
    (∀ isPlaylist : Bool,
      (build_ydl_opts path keep_audio_only isPlaylist).noplaylist = isPlaylist) ∧
    (build_ydl_opts path keep_audio_only true).noplaylist = true ∧
    (build_ydl_opts path keep_audio_only false).noplaylist = false ∧
    (∀ env url evs toolExn s,
      download_playlist env url path keep_audio_only evs toolExn s =
        download_from_youtube env url path keep_audio_only true evs toolExn s) ∧
    (∀ env url evs toolExn s,
      download_video env url path keep_audio_only evs toolExn s =
        download_from_youtube env url path keep_audio_only false evs toolExn s) := by
  refine ⟨fun isPlaylist => ?_, rfl, rfl, fun _ _ _ _ _ => rfl, fun _ _ _ _ _ => rfl⟩
  cases isPlaylist <;> rfl

/-! ## Claims about the progress hook -/

/-- C8: for every ProgressEvent whose status is not "finished", the progress
hook is a no-op: no transcoding invocation, no file change, no log line —
the state is returned unchanged and no exception is raised. -/
theorem claim_C8 (env : List String → RunResult) (d : ProgressEvent)
    (convert_to_mp3 : Bool) (s : HookState) (h : d.status ≠ "finished") :
    progress_hook env d convert_to_mp3 s = Except.ok s := by
  unfold progress_hook
  rw [if_neg h]

/-- Witness for C8 at a concrete intermediate event. -/
theorem claim_C8_witness :
    progress_hook (fun _ => RunResult.exit 0) ⟨"downloading", "./out/x.webm"⟩
        true ⟨["./out/x.part"], [], []⟩ =
      Except.ok ⟨["./out/x.part"], [], []⟩ :=
  claim_C8 (fun _ => RunResult.exit 0) ⟨"downloading", "./out/x.webm"⟩ true
    ⟨["./out/x.part"], [], []⟩ (by decide)

/-! ## Branch-equation lemmas for the hook on a finished event -/

/-- The hook is the identity computation when the status is not `finished`. -/
theorem hook_skip (env : List String → RunResult) (d : ProgressEvent)
    (convert_to_mp3 : Bool) (s : HookState) (h : d.status ≠ "finished") :
    progress_hook env d convert_to_mp3 s = Except.ok s := by
  unfold progress_hook
  rw [if_neg h]

/-- Without convert_to_mp3 the hook only logs the finished filename. -/
theorem hook_noconvert (env : List String → RunResult) (d : ProgressEvent)
    (s : HookState) :
    progress_hook env d false s = Except.ok
      (if d.status = "finished"
       then logInfo s ("Downloaded file: " ++ d.filename) else s) := by
  by_cases h : d.status = "finished" <;> simp [progress_hook, h]

/-- Finished event, convert mode, transcoder exits 0, original present:
output created, original removed, four log lines. -/
theorem progress_hook_exit0 (env : List String → RunResult) (f : String)
    (s : HookState)
    (henv : env (ffmpegCommand f (output_filename f)) = RunResult.exit 0)
    (hmem : f ∈ output_filename f :: s.fs) :
    progress_hook env ⟨"finished", f⟩ true s = Except.ok
      ⟨(output_filename f :: s.fs).filter (fun g => decide (g ≠ f)),
       s.invocations ++ [ffmpegCommand f (output_filename f)],
       s.log ++ [⟨LogLevel.info, "Downloaded file: " ++ f⟩,
         ⟨LogLevel.debug, "Converting " ++ f ++ " to MP3..."⟩,
         ⟨LogLevel.info, "Converted " ++ f ++ " to MP3: " ++ output_filename f⟩,
         ⟨LogLevel.debug, "Deleted original file: " ++ f⟩]⟩ := by
  simp [progress_hook, henv, hmem, logInfo, logDebug]

/-- Finished event, convert mode, transcoder exits non-zero: the
`CalledProcessError` is caught, an error line is logged, filesystem
untouched. -/
theorem progress_hook_exitN (env : List String → RunResult) (f : String)
    (s : HookState) (n : Nat)
    (henv : env (ffmpegCommand f (output_filename f)) = RunResult.exit (n + 1)) :
    progress_hook env ⟨"finished", f⟩ true s = Except.ok
      ⟨s.fs, s.invocations ++ [ffmpegCommand f (output_filename f)],
       s.log ++ [⟨LogLevel.info, "Downloaded file: " ++ f⟩,
         ⟨LogLevel.debug, "Converting " ++ f ++ " to MP3..."⟩,
         ⟨LogLevel.error, "Error converting " ++ f ++ " to MP3: "
           ++ exnMessage (PyExn.calledProcessError (n + 1))⟩]⟩ := by
  simp [progress_hook, henv, logInfo, logDebug, logError]

/-- Finished event, convert mode, launching the transcoder raises a
non-`CalledProcessError` (e.g. FFmpeg not installed): the exception escapes
the hook. -/
theorem progress_hook_raiseOther (env : List String → RunResult) (f : String)
    (s : HookState)
    (henv : env (ffmpegCommand f (output_filename f)) = RunResult.raiseOther) :
    progress_hook env ⟨"finished", f⟩ true s = Except.error (PyExn.otherError,
      ⟨s.fs, s.invocations ++ [ffmpegCommand f (output_filename f)],
       s.log ++ [⟨LogLevel.info, "Downloaded file: " ++ f⟩,
         ⟨LogLevel.debug, "Converting " ++ f ++ " to MP3..."⟩]⟩) := by
  simp [progress_hook, henv, logInfo, logDebug]

/-- Finished event, convert mode, transcoder exits 0 but the original file is
not present: `os.remove` raises, and that exception escapes the hook. -/
theorem progress_hook_removeFail (env : List String → RunResult) (f : String)
    (s : HookState)
    (henv : env (ffmpegCommand f (output_filename f)) = RunResult.exit 0)
    (hmem : f ∉ output_filename f :: s.fs) :
    progress_hook env ⟨"finished", f⟩ true s = Except.error (PyExn.otherError,
      ⟨output_filename f :: s.fs,
       s.invocations ++ [ffmpegCommand f (output_filename f)],
       s.log ++ [⟨LogLevel.info, "Downloaded file: " ++ f⟩,
         ⟨LogLevel.debug, "Converting " ++ f ++ " to MP3..."⟩,
         ⟨LogLevel.info, "Converted " ++ f ++ " to MP3: " ++ output_filename f⟩]⟩) := by
  simp [progress_hook, henv, hmem, logInfo, logDebug]

/-- Whatever the transcoder does, a finished event in convert mode records
exactly one invocation: the FFmpeg command for that filename. -/
theorem progress_hook_invocations (env : List String → RunResult) (f : String)
    (s : HookState) :
    (effState (progress_hook env ⟨"finished", f⟩ true s)).invocations
      = s.invocations ++ [ffmpegCommand f (output_filename f)] := by
  cases henv : env (ffmpegCommand f (output_filename f)) with
  | raiseOther =>
    simp [progress_hook, henv, effState, logInfo, logDebug]
  | exit n =>
    cases n with
    | zero =>
      by_cases hmem : f ∈ output_filename f :: s.fs
      · simp [progress_hook, henv, effState, logInfo, logDebug, hmem]
      · simp [progress_hook, henv, effState, logInfo, logDebug, hmem]
    | succ m =>
      simp [progress_hook, henv, effState, logInfo, logDebug, logError]

/-- Without convert mode no event changes invocations or filesystem. -/
theorem runHooks_false (env : List String → RunResult) (evs : List ProgressEvent) :
    ∀ s : HookState, ∃ s1, runHooks env false evs s = Except.ok s1 ∧
      s1.invocations = s.invocations ∧ s1.fs = s.fs := by
  induction evs with
  | nil => intro s; exact ⟨s, rfl, rfl, rfl⟩
  | cons e rest ih =>
    intro s
    obtain ⟨s1, h1, h2, h3⟩ := ih (if e.status = "finished"
      then logInfo s ("Downloaded file: " ++ e.filename) else s)
    refine ⟨s1, ?_, ?_, ?_⟩
    · simp only [runHooks, hook_noconvert]
      exact h1
    · rw [h2]; by_cases hst : e.status = "finished" <;> simp [hst, logInfo]
    · rw [h3]; by_cases hst : e.status = "finished" <;> simp [hst, logInfo]

/-- The fetch wrapper adds only log lines around the hook run: the recorded
invocations are those of the hook run on the delivered events. -/
theorem download_effState_invocations (env : List String → RunResult)
    (url path : String) (keep pl : Bool) (evs : List ProgressEvent)
    (toolExn : Option PyExn) (s : HookState) :
    (effState (download_from_youtube env url path keep pl evs toolExn s)).invocations
      = (effState (runHooks env keep evs
          (logDebug s ("Starting download for playlist: " ++ url)))).invocations := by
  simp only [download_from_youtube, fetch_try, build_ydl_opts]
  cases hr : runHooks env keep evs
      (logDebug s ("Starting download for playlist: " ++ url)) with
  | ok s2 => cases toolExn <;> simp [effState, logError]
  | error x => obtain ⟨e, st⟩ := x; simp [effState, logError]

/-! ## Remaining claims -/

/-- C1 (counterexample): the claim says the hook never raises past its own
boundary; but when launching the transcoding tool raises a
non-`CalledProcessError` (FFmpeg not installed raises `FileNotFoundError`),
the `except subprocess.CalledProcessError` clause does not catch it and the
hook raises. -/
theorem claim_C1_counterexample :
    raised (progress_hook (fun _ => RunResult.raiseOther)
      ⟨"finished", "./out/1 - Title.webm"⟩ true
      ⟨["./out/1 - Title.webm"], [], []⟩) = true := by
  rfl

/-- C1 (amended): the hook absorbs exactly the transcoding tool's non-zero
exit (`subprocess.CalledProcessError`) — no such failure ever escapes — and
it returns normally whenever no external start raises a launch failure and
the finished file exists; any other exception (launch failure of the
transcoder, failed deletion of the original) propagates past the hook. -/
theorem claim_C1_amended (env : List String → RunResult) (d : ProgressEvent)
    (convert_to_mp3 : Bool) (s : HookState) :
    escapesCalledProcessError (progress_hook env d convert_to_mp3 s) = false ∧
    ((∀ cmd, env cmd ≠ RunResult.raiseOther) → d.filename ∈ s.fs →
      raised (progress_hook env d convert_to_mp3 s) = false) := by
  obtain ⟨st, fn⟩ := d
  by_cases hst : st = "finished"
  · subst hst
    cases convert_to_mp3 with
    | false =>
      rw [hook_noconvert]
      exact ⟨rfl, fun _ _ => rfl⟩
    | true =>
      cases henv : env (ffmpegCommand fn (output_filename fn)) with
      | raiseOther =>
        rw [progress_hook_raiseOther env fn s henv]
        refine ⟨rfl, ?_⟩
        intro hno _
        exact absurd henv (hno _)
      | exit n =>
        cases n with
        | zero =>
          by_cases hmem : fn ∈ output_filename fn :: s.fs
          · rw [progress_hook_exit0 env fn s henv hmem]
            exact ⟨rfl, fun _ _ => rfl⟩
          · rw [progress_hook_removeFail env fn s henv hmem]
            refine ⟨rfl, ?_⟩
            intro _ hf
            exact absurd (List.mem_cons_of_mem _ hf) hmem
        | succ m =>
          rw [progress_hook_exitN env fn s m henv]
          exact ⟨rfl, fun _ _ => rfl⟩
  · rw [hook_skip env ⟨st, fn⟩ convert_to_mp3 s hst]
    exact ⟨rfl, fun _ _ => rfl⟩

/-- Witness for C1 (amended) at a concrete event and environment. -/
theorem claim_C1_witness :
    escapesCalledProcessError (progress_hook (fun _ => RunResult.exit 0)
      ⟨"finished", "a.webm"⟩ true ⟨["a.webm"], [], []⟩) = false ∧
    raised (progress_hook (fun _ => RunResult.exit 0)
      ⟨"finished", "a.webm"⟩ true ⟨["a.webm"], [], []⟩) = false :=
  ⟨(claim_C1_amended (fun _ => RunResult.exit 0) ⟨"finished", "a.webm"⟩ true
      ⟨["a.webm"], [], []⟩).1,
   (claim_C1_amended (fun _ => RunResult.exit 0) ⟨"finished", "a.webm"⟩ true
      ⟨["a.webm"], [], []⟩).2 (fun _ h => RunResult.noConfusion h) (by decide)⟩

/-- C2: on every finished event in audio-only mode the hook starts the
transcoding tool exactly once, with the deterministic argument list
`ffmpeg -i f -vn -ar 44100 -ac 2 -b:a 320k -f mp3 o` where `o` is `f` with
its extension replaced by `.mp3` (stated for filenames whose basename has an
extension, i.e. contains a dot after the last slash). -/
theorem claim_C2 (env : List String → RunResult) (f : String) (s : HookState)
    (hdot : '.' ∈ afterLast '/' f.data) :
    ∃ o : String,
      (effState (progress_hook env ⟨"finished", f⟩ true s)).invocations
        = s.invocations ++ [["ffmpeg", "-i", f, "-vn", "-ar", "44100",
            "-ac", "2", "-b:a", "320k", "-f", "mp3", o]] ∧
      ∃ stem ext : String, f = stem ++ "." ++ ext ∧ '.' ∉ ext.data ∧
        '/' ∉ ext.data ∧ o = stem ++ ".mp3" := by
  refine ⟨output_filename f, ?_, ?_⟩
  · exact progress_hook_invocations env f s
  · have hmem : '.' ∈ f.data := mem_of_mem_afterLast '/' f.data '.' hdot
    obtain ⟨p, hp⟩ := beforeLast_isSome_of_mem '.' f.data hmem
    have hdec := beforeLast_decomp '.' f.data p hp
    refine ⟨String.mk p, String.mk (afterLast '.' f.data), ?_, ?_, ?_, ?_⟩
    · apply String.ext
      rw [String.data_append, String.data_append]
      have hdotdata : ".".data = ['.'] := rfl
      rw [hdotdata]
      simpa using hdec
    · exact not_mem_afterLast_self '.' f.data
    · intro h
      exact afterLast_sym '/' '.' f.data hdot h
    · unfold output_filename rsplitStem
      rw [hp]

/-- Witness for C2 at the spec's scenario filename. -/
theorem claim_C2_witness :
    '.' ∈ afterLast '/' "./out/1 - Title.webm".data ∧
    (∃ o : String,
      (effState (progress_hook (fun _ => RunResult.exit 0)
          ⟨"finished", "./out/1 - Title.webm"⟩ true
          ⟨["./out/1 - Title.webm"], [], []⟩)).invocations
        = ([] : List (List String)) ++ [["ffmpeg", "-i", "./out/1 - Title.webm",
            "-vn", "-ar", "44100", "-ac", "2", "-b:a", "320k", "-f", "mp3", o]] ∧
      ∃ stem ext : String, "./out/1 - Title.webm" = stem ++ "." ++ ext ∧
        '.' ∉ ext.data ∧ '/' ∉ ext.data ∧ o = stem ++ ".mp3") :=
  ⟨by decide, claim_C2 (fun _ => RunResult.exit 0) "./out/1 - Title.webm"
    ⟨["./out/1 - Title.webm"], [], []⟩ (by decide)⟩

/-- C3: on a finished event in audio-only mode, if the transcoder exits zero
the original file is gone and the audio file exists; if it exits non-zero
the failure is caught, an error line is logged, the filesystem is unchanged
(original retained, no audio file created). -/
theorem claim_C3 (env : List String → RunResult) (f : String) (s : HookState)
    (hf : f ∈ s.fs) (hne : output_filename f ≠ f) :
    (env (ffmpegCommand f (output_filename f)) = RunResult.exit 0 →
      ∃ s1, progress_hook env ⟨"finished", f⟩ true s = Except.ok s1 ∧
        f ∉ s1.fs ∧ output_filename f ∈ s1.fs) ∧
    (∀ n, env (ffmpegCommand f (output_filename f)) = RunResult.exit (n + 1) →
      ∃ s1, progress_hook env ⟨"finished", f⟩ true s = Except.ok s1 ∧
        s1.fs = s.fs ∧ f ∈ s1.fs ∧
        ∃ pre, s1.log = pre ++ [⟨LogLevel.error,
          "Error converting " ++ f ++ " to MP3: "
            ++ exnMessage (PyExn.calledProcessError (n + 1))⟩]) := by
  constructor
  · intro henv
    refine ⟨_, progress_hook_exit0 env f s henv (List.mem_cons_of_mem _ hf), ?_, ?_⟩
    · intro hcontra
      have hbad := (List.mem_filter.mp hcontra).2
      simp at hbad
    · exact List.mem_filter.mpr ⟨List.mem_cons_self _ _, by simpa using hne⟩
  · intro n henv
    refine ⟨_, progress_hook_exitN env f s n henv, rfl, hf, ?_⟩
    refine ⟨s.log ++ [⟨LogLevel.info, "Downloaded file: " ++ f⟩,
      ⟨LogLevel.debug, "Converting " ++ f ++ " to MP3..."⟩], ?_⟩
    simp

/-- Witness for C3: success at exit code 0, failure at exit code 1. -/
theorem claim_C3_witness :
    (∃ s1, progress_hook (fun _ => RunResult.exit 0) ⟨"finished", "a.webm"⟩ true
        ⟨["a.webm"], [], []⟩ = Except.ok s1 ∧
      "a.webm" ∉ s1.fs ∧ output_filename "a.webm" ∈ s1.fs) ∧
    (∃ s1, progress_hook (fun _ => RunResult.exit 1) ⟨"finished", "a.webm"⟩ true
        ⟨["a.webm"], [], []⟩ = Except.ok s1 ∧
      s1.fs = ["a.webm"] ∧ "a.webm" ∈ s1.fs ∧
      ∃ pre, s1.log = pre ++ [⟨LogLevel.error,
        "Error converting " ++ "a.webm" ++ " to MP3: "
          ++ exnMessage (PyExn.calledProcessError 1)⟩]) :=
  ⟨(claim_C3 (fun _ => RunResult.exit 0) "a.webm" ⟨["a.webm"], [], []⟩
      (by decide) (by decide)).1 rfl,
   (claim_C3 (fun _ => RunResult.exit 1) "a.webm" ⟨["a.webm"], [], []⟩
      (by decide) (by decide)).2 0 rfl⟩

/-- C4: with audioOnly=false the whole invocation — every delivered event
included, whatever its status or filename — starts no external transcoding
process. -/
theorem claim_C4 (env : List String → RunResult) (url path : String)
    (isPlaylist : Bool) (evs : List ProgressEvent) (toolExn : Option PyExn)
    (s : HookState) :
    (effState (download_from_youtube env url path false isPlaylist evs toolExn s)).invocations
      = s.invocations := by
  rw [download_effState_invocations]
  obtain ⟨s1, h1, h2, h3⟩ := runHooks_false env evs
    (logDebug s ("Starting download for playlist: " ++ url))
  rw [h1]
  simpa [effState, logDebug] using h2

/-- C6: every exception of the batch (the download tool's own, or one
escaping a hook) is caught inside the fetcher, logged, and the call returns
normally, propagating no failure signal. -/
theorem claim_C6 (env : List String → RunResult) (url path : String)
    (keep pl : Bool) (evs : List ProgressEvent) (toolExn : Option PyExn)
    (s : HookState) :
    raised (download_from_youtube env url path keep pl evs toolExn s) = false ∧
    ∀ e st, fetch_try env url path keep pl evs toolExn s = Except.error (e, st) →
      download_from_youtube env url path keep pl evs toolExn s =
        Except.ok (logError st ("Error downloading playlist: " ++ url ++ ", "
          ++ exnMessage e)) := by
  constructor
  · unfold download_from_youtube
    cases h : fetch_try env url path keep pl evs toolExn s with
    | ok s1 => rfl
    | error x => obtain ⟨e, st⟩ := x; rfl
  · intro e st heq
    unfold download_from_youtube
    rw [heq]

/-- Witness for C6: a batch whose download tool raises is caught and logged. -/
theorem claim_C6_witness :
    raised (download_from_youtube (fun _ => RunResult.exit 0) "u" "p" false false
      [] (some PyExn.downloadError) ⟨[], [], []⟩) = false ∧
    download_from_youtube (fun _ => RunResult.exit 0) "u" "p" false false
        [] (some PyExn.downloadError) ⟨[], [], []⟩ =
      Except.ok (logError ⟨[], [], [⟨LogLevel.debug, "Starting download for playlist: u"⟩]⟩
        ("Error downloading playlist: " ++ "u" ++ ", " ++ exnMessage PyExn.downloadError)) :=
  ⟨(claim_C6 (fun _ => RunResult.exit 0) "u" "p" false false [] (some PyExn.downloadError)
      ⟨[], [], []⟩).1,
   (claim_C6 (fun _ => RunResult.exit 0) "u" "p" false false [] (some PyExn.downloadError)
      ⟨[], [], []⟩).2 PyExn.downloadError
      ⟨[], [], [⟨LogLevel.debug, "Starting download for playlist: u"⟩]⟩ rfl⟩

/-- C10: the audio output name splits at the last dot anywhere in the full
path: with no dot at all, `.mp3` is appended; with a dot, the name is the
prefix before the last dot plus `.mp3` — in particular
`./out/NoExtension` (dotless basename, dotted directory) maps to `.mp3`. -/
theorem claim_C10 (f : String) :
    ('.' ∉ f.data → output_filename f = f ++ ".mp3") ∧
    ('.' ∈ f.data → ∃ p, beforeLast '.' f.data = some p ∧
      f.data = p ++ '.' :: afterLast '.' f.data ∧
      '.' ∉ afterLast '.' f.data ∧
      output_filename f = String.mk p ++ ".mp3") ∧
    output_filename "./out/NoExtension" = ".mp3" := by
  refine ⟨?_, ?_, by decide⟩
  · intro h
    unfold output_filename rsplitStem
    rw [(beforeLast_eq_none_iff '.' f.data).mpr h]
  · intro h
    obtain ⟨p, hp⟩ := beforeLast_isSome_of_mem '.' f.data h
    refine ⟨p, hp, beforeLast_decomp '.' f.data p hp,
      not_mem_afterLast_self '.' f.data, ?_⟩
    unfold output_filename rsplitStem
    rw [hp]

/-- Witness for C10 at a dotless name and at the claim's example path. -/
theorem claim_C10_witness :
    output_filename "NoDots" = "NoDots" ++ ".mp3" ∧
    (∃ p, beforeLast '.' "./out/NoExtension".data = some p ∧
      "./out/NoExtension".data = p ++ '.' :: afterLast '.' "./out/NoExtension".data ∧
      '.' ∉ afterLast '.' "./out/NoExtension".data ∧
      output_filename "./out/NoExtension" = String.mk p ++ ".mp3") :=
  ⟨(claim_C10 "NoDots").1 (by decide), (claim_C10 "./out/NoExtension").2.1 (by decide)⟩
